import Mathlib

/-!
Verification of the plan-execution engine in `action_coordinator.py`
(`ActionCoordinator`): retry policy with exponential backoff, plan-level
abort policy, concurrency gate, execution ledger and lifetime statistics.

The embedding mirrors the source module:
* `ActionStatus`, `ActionType`, `Action`, `Plan`, `ExecutionResult` mirror the
  dataclasses / enums (`Action` and `Plan` live in `agent_core.py`).
* `executeActionWithRetry` mirrors `ActionCoordinator._execute_action_with_retry`;
  the side-effecting handler invocation is abstracted as an oracle
  `invoke : Nat → Except String String` giving the outcome of each physical
  attempt, and the wall clock as `attemptDur`.  Besides the `ExecutionResult`
  the embedding returns the trace of gate / handler / sleep events and the
  number of `total_retries` increments performed.
* `executePlanLoop` / `execute_plan` mirror `ActionCoordinator.execute_plan`;
  the per-step body is an abstract `StepFun` that may raise (modelling an
  orchestration failure escaping the loop), and `realStep` instantiates it
  with the actual retry executor, which never raises.
* `Sys`, `Step`, `Reach` give an interleaving semantics for tasks running
  event traces against the shared counting semaphore, used for the
  concurrency-gate claims.
-/

namespace BrowseHelper

/-- Mirrors `ActionStatus` in `action_coordinator.py`. -/
inductive ActionStatus
  | pending
  | running
  | completed
  | failed
  | retrying
  | skipped
  | timeout
deriving DecidableEq, Repr

/-- Mirrors `ActionType` in `agent_core.py` (ten tags; only seven are registered). -/
inductive ActionType
  | navigate
  | click
  | input_text
  | extract_data
  | wait
  | scroll
  | decision
  | condition
  | loop
  | execute_script
deriving DecidableEq, Repr

/-- Mirrors the `.value` string of each `ActionType` enum member. -/
def ActionType.value : ActionType → String
  | .navigate => "navigate"
  | .click => "click"
  | .input_text => "input_text"
  | .extract_data => "extract_data"
  | .wait => "wait"
  | .scroll => "scroll"
  | .decision => "decision"
  | .condition => "condition"
  | .loop => "loop"
  | .execute_script => "execute_script"

/-- Mirrors the `Action` dataclass in `agent_core.py`. -/
structure Action where
  type : ActionType
  target : Option String := none
  value : Option String := none
  description : String := ""
  conditions : List String := []
  retry_on_fail : Bool := true
  timeout : Nat := 30000
deriving DecidableEq, Repr

/-- Mirrors the `Plan` dataclass in `agent_core.py`. -/
structure Plan where
  task : String
  actions : List Action
  expected_outcome : String := ""
  assumptions : List String := []
  constraints : List String := []

/-- Mirrors the `ExecutionResult` dataclass in `action_coordinator.py`.
The handler payload is abstracted as a string. -/
structure ExecutionResult where
  action_id : String
  status : ActionStatus
  data : Option String := none
  error : Option String := none
  duration : ℚ := 0
  retry_count : Nat := 0
deriving DecidableEq, Repr

instance : Inhabited Action :=
  ⟨{ type := ActionType.navigate }⟩

instance : Inhabited ExecutionResult :=
  ⟨{ action_id := "", status := ActionStatus.pending }⟩

/-- Configuration keys read by `ActionCoordinator`, with the `config.get`
defaults from the source (`retry_attempts` 3, `retry_delay` 1.0,
`max_parallel_actions` 2). -/
structure Config where
  retry_attempts : Nat := 3
  retry_delay : ℚ := 1
  max_parallel_actions : Nat := 2
deriving DecidableEq, Repr

/-- The keys of `self.action_handlers`, in construction order. -/
def action_handlers : List String :=
  ["navigate", "click", "input_text", "extract_data", "wait", "scroll", "execute_script"]

/-- Observable events of one execution: semaphore acquire / release,
handler invocation start / end, and suspensions (`asyncio.sleep`). -/
inductive Ev
  | acq
  | hstart
  | hend
  | rel
  | slp (d : ℚ)
deriving DecidableEq, Repr

/-- Whether an attempt outcome is a raised exception. -/
def isFail (o : Except String String) : Bool :=
  match o with
  | .error _ => true
  | .ok _ => false

/-- Events of one physical handler invocation: the semaphore is entered
(`async with self.semaphore`), the handler runs, the semaphore is released
when the handler returns or raises. -/
def invocationBlock : List Ev := [Ev.acq, Ev.hstart, Ev.hend, Ev.rel]

/-- The `for attempt in range(max_retries + 1)` loop of
`_execute_action_with_retry`, lines 157-191.  `attempt` is the current
attempt index and `left` the number of attempts after this one
(`attempt < max_retries` in the source is `0 < left` here).  Returns the
terminal `ExecutionResult`, the event trace, and the number of
`self.stats["total_retries"] += 1` increments performed. -/
def retryLoop (retry_delay : ℚ) (invoke : Nat → Except String String)
    (attemptDur : Nat → ℚ) (step_index : Nat) :
    Nat → Nat → ExecutionResult × List Ev × Nat
  | attempt, 0 =>
    match invoke attempt with
    | .ok d =>
      ({ action_id := "step_" ++ toString step_index,
         status := ActionStatus.completed,
         data := some d,
         duration := attemptDur attempt,
         retry_count := attempt }, invocationBlock, 0)
    | .error msg =>
      ({ action_id := "step_" ++ toString step_index,
         status := ActionStatus.failed,
         error := some msg,
         duration := attemptDur attempt,
         retry_count := attempt }, invocationBlock, 1)
  | attempt, left' + 1 =>
    match invoke attempt with
    | .ok d =>
      ({ action_id := "step_" ++ toString step_index,
         status := ActionStatus.completed,
         data := some d,
         duration := attemptDur attempt,
         retry_count := attempt }, invocationBlock, 0)
    | .error _ =>
      let out := retryLoop retry_delay invoke attemptDur step_index (attempt + 1) left'
      (out.1, invocationBlock ++ Ev.slp (retry_delay * 2 ^ attempt) :: out.2.1, out.2.2 + 1)

/-- Mirrors `ActionCoordinator._execute_action_with_retry` (lines 133-191):
resolve the handler from the registry; an unknown tag yields an immediate
`failed` result (empty trace, no retry increments); otherwise run the retry
loop starting at attempt 0 with `max_retries` further attempts available. -/
def executeActionWithRetry (cfg : Config) (action : Action) (step_index : Nat)
    (invoke : Nat → Except String String) (attemptDur : Nat → ℚ) :
    ExecutionResult × List Ev × Nat :=
  let max_retries := cfg.retry_attempts
  let action_type := action.type.value
  if action_handlers.contains action_type then
    retryLoop cfg.retry_delay invoke attemptDur step_index 0 max_retries
  else
    ({ action_id := "step_" ++ toString step_index,
       status := ActionStatus.failed,
       error := some ("Неизвестный тип действия: " ++ action.type.value) }, [], 0)

/-- Abstract per-step body of the plan loop: given the step index and the
action, either return the step's result, trace and retry increments, or
raise (an orchestration failure escaping the loop). -/
def StepFun : Type :=
  Nat → Action → Except String (ExecutionResult × List Ev × Nat)

/-- The `for i, action in enumerate(plan.actions)` loop of `execute_plan`
(lines 86-103): run the step, append its result, stop if the result is
`failed` and the action's `retry_on_fail` is false, otherwise sleep the
0.5s inter-step pacing delay when more actions remain.  Returns the ledger,
the event trace, the accumulated `total_retries` increments, and the
orchestration error if one escaped. -/
def executePlanLoop (stepF : StepFun) :
    List Action → Nat → List ExecutionResult × List Ev × Nat × Option String
  | [], _ => ([], [], 0, none)
  | action :: rest, i =>
    match stepF i action with
    | .error e => ([], [], 0, some e)
    | .ok (r, tr, d) =>
      if r.status = ActionStatus.failed ∧ action.retry_on_fail = false then
        ([r], tr, d, none)
      else
        match rest with
        | [] => ([r], tr, d, none)
        | _ :: _ =>
          let out := executePlanLoop stepF rest (i + 1)
          (r :: out.1, tr ++ Ev.slp (1 / 2) :: out.2.1, d + out.2.2.1, out.2.2.2)

/-- Mirrors `self.stats` of `ActionCoordinator`. -/
structure Stats where
  actions_executed : Nat := 0
  actions_failed : Nat := 0
  total_retries : Nat := 0
  total_duration : ℚ := 0
deriving DecidableEq, Repr

/-- The mutable state of an `ActionCoordinator` instance relevant to the
claims: readiness flags, configuration, lifetime statistics. -/
structure CoordinatorState where
  is_ready : Bool := false
  active : Bool := false
  config : Config := {}
  stats : Stats := {}
deriving DecidableEq, Repr

/-- Mirrors `ActionCoordinator.__init__`: fresh flags and zeroed counters. -/
def initCoordinator (config : Config) : CoordinatorState :=
  { is_ready := false, active := false, config := config, stats := {} }

/-- The dictionary returned by `execute_plan`.  The fields absent from the
exception-path dictionary (lines 125-131) are `Option`s left `none` there. -/
structure ExecutionSummary where
  execution_id : String
  success : Bool
  total_actions : Option Nat := none
  successful_actions : Option Nat := none
  failed_actions : Option Nat := none
  duration : ℚ
  results : List ExecutionResult
  task : Option String := none
  error : Option String := none
deriving DecidableEq, Repr

/-- Mirrors `ActionCoordinator.execute_plan` (lines 75-131): raise when not
initialized; otherwise run the loop; on normal completion build the summary
and add the ledger totals to the lifetime counters; when an exception
escapes the loop, return the error summary with the partial ledger (the
`total_retries` increments already performed inside steps persist, the
other counters are not updated). -/
def execute_plan (st : CoordinatorState) (execution_id : String) (plan : Plan)
    (stepF : StepFun) (elapsed : ℚ) :
    Except String (ExecutionSummary × CoordinatorState) :=
  if st.is_ready = false then
    Except.error "Координатор не инициализирован"
  else
    match executePlanLoop stepF plan.actions 0 with
    | (results, _, retries, none) =>
      let success := results.all fun r => decide (r.status = ActionStatus.completed)
      let stats' : Stats :=
        { actions_executed := st.stats.actions_executed + results.length,
          actions_failed := st.stats.actions_failed +
            results.countP (fun r => decide (r.status = ActionStatus.failed)),
          total_retries := st.stats.total_retries + retries,
          total_duration := st.stats.total_duration + elapsed }
      Except.ok
        ({ execution_id := execution_id,
           success := success,
           total_actions := some results.length,
           successful_actions :=
             some (results.countP fun r => decide (r.status = ActionStatus.completed)),
           failed_actions :=
             some (results.countP fun r => decide (r.status = ActionStatus.failed)),
           duration := elapsed,
           results := results,
           task := some plan.task },
         { st with stats := stats' })
    | (results, _, retries, some e) =>
      Except.ok
        ({ execution_id := execution_id,
           success := false,
           duration := elapsed,
           results := results,
           error := some e },
         { st with stats := { st.stats with
             total_retries := st.stats.total_retries + retries } })

/-- The actual per-step body: `_execute_action_with_retry`, which always
returns (it catches every handler exception).  `beh i` is the attempt
oracle for step `i`, `dur i` its attempt wall times. -/
def realStep (cfg : Config) (beh : Nat → Nat → Except String String)
    (dur : Nat → Nat → ℚ) : StepFun :=
  fun i action => Except.ok (executeActionWithRetry cfg action i (beh i) (dur i))

/-- The dictionary returned by `ActionCoordinator.get_status`. -/
structure StatusReport where
  is_ready : Bool
  is_active : Bool
  stats : Stats
  max_parallel : Nat
  available_actions : List String
deriving DecidableEq, Repr

/-- Mirrors `ActionCoordinator.get_status` (lines 362-369).  `max_parallel`
is read from `self.semaphore._value`, the semaphore's CURRENT internal
counter, passed here as `semaphoreValue`. -/
def get_status (st : CoordinatorState) (semaphoreValue : Nat) : StatusReport :=
  { is_ready := st.is_ready,
    is_active := st.active,
    stats := st.stats,
    max_parallel := semaphoreValue,
    available_actions := action_handlers }

/-- Mirrors `ActionCoordinator.shutdown`: clears the flags, keeps the stats. -/
def shutdown (st : CoordinatorState) : CoordinatorState :=
  { st with is_ready := false, active := false }

/-- Number of handler invocations recorded in a trace. -/
def invocations (tr : List Ev) : Nat :=
  tr.countP fun e => decide (e = Ev.hstart)

/-- The suspension durations recorded in a trace, in order. -/
def sleeps (tr : List Ev) : List ℚ :=
  tr.filterMap fun e =>
    match e with
    | Ev.slp d => some d
    | _ => none

/-- A result is fatal to the plan when it is `failed` on an action whose
`retry_on_fail` is false (the abort condition of lines 97-100). -/
def Fatal (r : ExecutionResult) (a : Action) : Prop :=
  r.status = ActionStatus.failed ∧ a.retry_on_fail = false

instance (r : ExecutionResult) (a : Action) : Decidable (Fatal r a) := by
  unfold Fatal
  infer_instance

/-- Shorthand for the result of step `i` under the real step body. -/
def stepRes (cfg : Config) (beh : Nat → Nat → Except String String)
    (dur : Nat → Nat → ℚ) (i : Nat) (a : Action) : ExecutionResult :=
  (executeActionWithRetry cfg a i (beh i) (dur i)).1

/-- Trace shape produced by the executor: a concatenation of gated
invocation blocks `acq, hstart, hend, rel` and stand-alone suspensions.
This is exactly "the gate is acquired immediately before the handler call,
released immediately after it returns or raises, and every sleep happens
outside the gate". -/
inductive GateShaped : List Ev → Prop
  | nil : GateShaped []
  | block {p : List Ev} : GateShaped p →
      GateShaped (Ev.acq :: Ev.hstart :: Ev.hend :: Ev.rel :: p)
  | pause {p : List Ev} (d : ℚ) : GateShaped p → GateShaped (Ev.slp d :: p)

/-- Well-formed remaining program of a task whose current flags are
`holding` (gate held) and `inHandler` (handler body running): events only
occur in states where they make sense, the handler only runs while the
gate is held, and suspensions only happen outside the gate. -/
inductive WF : Bool → Bool → List Ev → Prop
  | nil (h i : Bool) : WF h i []
  | acq {p : List Ev} : WF true false p → WF false false (Ev.acq :: p)
  | hstart {p : List Ev} : WF true true p → WF true false (Ev.hstart :: p)
  | hend {p : List Ev} : WF true false p → WF true true (Ev.hend :: p)
  | rel {p : List Ev} : WF false false p → WF true false (Ev.rel :: p)
  | slp {p : List Ev} (d : ℚ) : WF false false p → WF false false (Ev.slp d :: p)

/-- One cooperative task driving a plan execution: its remaining event
program, whether it currently holds a semaphore permit, and whether it is
currently inside a handler invocation. -/
structure Proc where
  prog : List Ev
  holding : Bool := false
  inHandler : Bool := false
deriving DecidableEq, Repr

/-- Global state of the interleaved system: the semaphore's current
internal counter (`Semaphore._value`) and the tasks. -/
structure Sys where
  sem : Nat
  tasks : List Proc
deriving DecidableEq, Repr

/-- Interleaving semantics: any task whose next event is enabled may take
it.  `acq` requires a positive semaphore counter and decrements it
(`async with self.semaphore` entry); `rel` increments it (exit, also on a
raised exception); the other events are always enabled. -/
inductive SysStep : Sys → Sys → Prop
  | acq (s : Nat) (l₁ l₂ : List Proc) (t : Proc) (p : List Ev) :
      0 < s → t.prog = Ev.acq :: p →
      SysStep ⟨s, l₁ ++ t :: l₂⟩
        ⟨s - 1, l₁ ++ { t with prog := p, holding := true } :: l₂⟩
  | hstart (s : Nat) (l₁ l₂ : List Proc) (t : Proc) (p : List Ev) :
      t.prog = Ev.hstart :: p →
      SysStep ⟨s, l₁ ++ t :: l₂⟩
        ⟨s, l₁ ++ { t with prog := p, inHandler := true } :: l₂⟩
  | hend (s : Nat) (l₁ l₂ : List Proc) (t : Proc) (p : List Ev) :
      t.prog = Ev.hend :: p →
      SysStep ⟨s, l₁ ++ t :: l₂⟩
        ⟨s, l₁ ++ { t with prog := p, inHandler := false } :: l₂⟩
  | rel (s : Nat) (l₁ l₂ : List Proc) (t : Proc) (p : List Ev) :
      t.prog = Ev.rel :: p →
      SysStep ⟨s, l₁ ++ t :: l₂⟩
        ⟨s + 1, l₁ ++ { t with prog := p, holding := false } :: l₂⟩
  | slp (s : Nat) (l₁ l₂ : List Proc) (t : Proc) (p : List Ev) (d : ℚ) :
      t.prog = Ev.slp d :: p →
      SysStep ⟨s, l₁ ++ t :: l₂⟩ ⟨s, l₁ ++ { t with prog := p } :: l₂⟩

/-- Initial system: the semaphore holds its configured bound and every
task still has its whole program to run. -/
def initSys (bound : Nat) (progs : List (List Ev)) : Sys :=
  ⟨bound, progs.map fun p => { prog := p }⟩

/-- Reachability under the interleaving semantics. -/
inductive Reach (σ₀ : Sys) : Sys → Prop
  | refl : Reach σ₀ σ₀
  | tail {σ₁ σ₂ : Sys} : Reach σ₀ σ₁ → SysStep σ₁ σ₂ → Reach σ₀ σ₂

/-- Number of tasks currently holding a semaphore permit. -/
def countHolding (ts : List Proc) : Nat :=
  ts.countP fun t => t.holding

/-- Number of tasks currently inside a handler invocation. -/
def countInHandler (ts : List Proc) : Nat :=
  ts.countP fun t => t.inHandler

/-- System invariant: permits out plus permits free equal the configured
bound, handlers only run under a held permit, and every task's remaining
program is well formed for its flags. -/
def SysInv (bound : Nat) (σ : Sys) : Prop :=
  σ.sem + countHolding σ.tasks = bound ∧
  ∀ t ∈ σ.tasks, (t.inHandler = true → t.holding = true) ∧
    WF t.holding t.inHandler t.prog

/-! ### Helper lemmas about the retry loop -/

lemma invocations_nil : invocations [] = 0 := rfl

lemma invocations_block_append (tr : List Ev) :
    invocations (invocationBlock ++ tr) = invocations tr + 1 := by
  simp [invocations, invocationBlock, List.countP_cons]

lemma invocations_slp_cons (d : ℚ) (tr : List Ev) :
    invocations (Ev.slp d :: tr) = invocations tr := by
  simp [invocations, List.countP_cons]

lemma sleeps_nil : sleeps [] = [] := rfl

lemma sleeps_block_append (tr : List Ev) :
    sleeps (invocationBlock ++ tr) = sleeps tr := by
  simp [sleeps, invocationBlock, List.filterMap_cons]

lemma sleeps_slp_cons (d : ℚ) (tr : List Ev) :
    sleeps (Ev.slp d :: tr) = d :: sleeps tr := by
  simp [sleeps, List.filterMap_cons]

/-- When every attempt from `attempt` through `attempt + left` fails, the
retry loop returns a `failed` result with `retry_count = attempt + left`,
performs `left + 1` retry increments and `left + 1` handler invocations,
and sleeps exactly the backoffs `rd * 2 ^ i` for `i` in
`attempt, …, attempt + left - 1`. -/
lemma retryLoop_fail_all (rd : ℚ) (invoke : Nat → Except String String)
    (dur : Nat → ℚ) (si : Nat) :
    ∀ left attempt, (∀ j, j ≤ left → isFail (invoke (attempt + j)) = true) →
    (retryLoop rd invoke dur si attempt left).1.status = ActionStatus.failed ∧
    (retryLoop rd invoke dur si attempt left).1.retry_count = attempt + left ∧
    (retryLoop rd invoke dur si attempt left).2.2 = left + 1 ∧
    invocations (retryLoop rd invoke dur si attempt left).2.1 = left + 1 ∧
    sleeps (retryLoop rd invoke dur si attempt left).2.1 =
      (List.range' attempt left).map fun i => rd * 2 ^ i := by
  intro left
  induction left with
  | zero =>
    intro attempt h
    have h0 := h 0 (Nat.le_refl 0)
    rw [Nat.add_zero] at h0
    cases hinv : invoke attempt with
    | ok d => rw [hinv] at h0; simp [isFail] at h0
    | error msg =>
      simp [retryLoop, hinv, invocations, invocationBlock, sleeps,
        List.countP_cons, List.filterMap_cons]
  | succ left' ih =>
    intro attempt h
    have h0 := h 0 (Nat.zero_le _)
    rw [Nat.add_zero] at h0
    cases hinv : invoke attempt with
    | ok d => rw [hinv] at h0; simp [isFail] at h0
    | error msg =>
      have hrec := ih (attempt + 1) (fun j hj => by
        have hx := h (j + 1) (by omega)
        rwa [show attempt + (j + 1) = attempt + 1 + j by omega] at hx)
      obtain ⟨hst, hrc, hd, hinvoc, hslp⟩ := hrec
      refine ⟨?_, ?_, ?_, ?_, ?_⟩
      · simp only [retryLoop, hinv]
        exact hst
      · simp only [retryLoop, hinv]
        omega
      · simp only [retryLoop, hinv]
        omega
      · simp only [retryLoop, hinv, invocations_block_append, invocations_slp_cons]
        omega
      · simp only [retryLoop, hinv, sleeps_block_append, sleeps_slp_cons]
        rw [hslp, List.range'_succ, List.map_cons]

/-- When the attempts `attempt, …, k - 1` fail and attempt `k` succeeds
(`attempt ≤ k ≤ attempt + left`), the retry loop returns a `completed`
result with `retry_count = k`, performs `k - attempt` retry increments and
`k - attempt + 1` handler invocations, and sleeps exactly the backoffs for
attempts `attempt, …, k - 1`. -/
lemma retryLoop_first_ok (rd : ℚ) (invoke : Nat → Except String String)
    (dur : Nat → ℚ) (si : Nat) :
    ∀ left attempt k, attempt ≤ k → k ≤ attempt + left →
    (∀ i, attempt ≤ i → i < k → isFail (invoke i) = true) →
    isFail (invoke k) = false →
    (retryLoop rd invoke dur si attempt left).1.status = ActionStatus.completed ∧
    (retryLoop rd invoke dur si attempt left).1.retry_count = k ∧
    (retryLoop rd invoke dur si attempt left).2.2 = k - attempt ∧
    invocations (retryLoop rd invoke dur si attempt left).2.1 = k - attempt + 1 ∧
    sleeps (retryLoop rd invoke dur si attempt left).2.1 =
      (List.range' attempt (k - attempt)).map fun i => rd * 2 ^ i := by
  intro left
  induction left with
  | zero =>
    intro attempt k hak hka hfail hok
    have hk : k = attempt := by omega
    subst hk
    cases hinv : invoke k with
    | ok d =>
      simp [retryLoop, hinv, invocations, invocationBlock, sleeps,
        List.countP_cons, List.filterMap_cons]
    | error msg => rw [hinv] at hok; simp [isFail] at hok
  | succ left' ih =>
    intro attempt k hak hka hfail hok
    rcases Nat.eq_or_lt_of_le hak with heq | hlt
    · subst heq
      cases hinv : invoke attempt with
      | ok d =>
        simp [retryLoop, hinv, invocations, invocationBlock, sleeps,
          List.countP_cons, List.filterMap_cons]
      | error msg => rw [hinv] at hok; simp [isFail] at hok
    · have h0 := hfail attempt (Nat.le_refl _) hlt
      cases hinv : invoke attempt with
      | ok d => rw [hinv] at h0; simp [isFail] at h0
      | error msg =>
        have hrec := ih (attempt + 1) k hlt (by omega) (fun i h1 h2 => hfail i (by omega) h2) hok
        obtain ⟨hst, hrc, hd, hinvoc, hslp⟩ := hrec
        refine ⟨?_, ?_, ?_, ?_, ?_⟩
        · simp only [retryLoop, hinv]
          exact hst
        · simp only [retryLoop, hinv]
          exact hrc
        · simp only [retryLoop, hinv]
          omega
        · simp only [retryLoop, hinv, invocations_block_append, invocations_slp_cons]
          omega
        · simp only [retryLoop, hinv, sleeps_block_append, sleeps_slp_cons]
          rw [hslp, show k - attempt = (k - (attempt + 1)) + 1 by omega,
            List.range'_succ, List.map_cons]

/-- The retry loop only ever returns `completed` or `failed`. -/
lemma retryLoop_status (rd : ℚ) (invoke : Nat → Except String String)
    (dur : Nat → ℚ) (si : Nat) :
    ∀ left attempt,
    (retryLoop rd invoke dur si attempt left).1.status = ActionStatus.completed ∨
    (retryLoop rd invoke dur si attempt left).1.status = ActionStatus.failed := by
  intro left
  induction left with
  | zero =>
    intro attempt
    cases hinv : invoke attempt with
    | ok d => simp [retryLoop, hinv]
    | error msg => simp [retryLoop, hinv]
  | succ left' ih =>
    intro attempt
    cases hinv : invoke attempt with
    | ok d => simp [retryLoop, hinv]
    | error msg =>
      simp only [retryLoop, hinv]
      exact ih (attempt + 1)

/-- The retry count of the loop's result never exceeds the index of the
last available attempt. -/
lemma retryLoop_retry_count_le (rd : ℚ) (invoke : Nat → Except String String)
    (dur : Nat → ℚ) (si : Nat) :
    ∀ left attempt,
    (retryLoop rd invoke dur si attempt left).1.retry_count ≤ attempt + left := by
  intro left
  induction left with
  | zero =>
    intro attempt
    cases hinv : invoke attempt with
    | ok d => simp [retryLoop, hinv]
    | error msg => simp [retryLoop, hinv]
  | succ left' ih =>
    intro attempt
    cases hinv : invoke attempt with
    | ok d => simp [retryLoop, hinv]
    | error msg =>
      simp only [retryLoop, hinv]
      have := ih (attempt + 1)
      omega

/-- The retry loop's trace is gate-shaped: invocations immediately
bracketed by acquire/release, sleeps strictly outside the gate. -/
lemma retryLoop_gateShaped (rd : ℚ) (invoke : Nat → Except String String)
    (dur : Nat → ℚ) (si : Nat) :
    ∀ left attempt, GateShaped (retryLoop rd invoke dur si attempt left).2.1 := by
  intro left
  induction left with
  | zero =>
    intro attempt
    cases hinv : invoke attempt with
    | ok d =>
      simp only [retryLoop, hinv, invocationBlock]
      exact GateShaped.block GateShaped.nil
    | error msg =>
      simp only [retryLoop, hinv, invocationBlock]
      exact GateShaped.block GateShaped.nil
  | succ left' ih =>
    intro attempt
    cases hinv : invoke attempt with
    | ok d =>
      simp only [retryLoop, hinv, invocationBlock]
      exact GateShaped.block GateShaped.nil
    | error msg =>
      simp only [retryLoop, hinv, invocationBlock, List.cons_append, List.nil_append]
      exact GateShaped.block (GateShaped.pause _ (ih (attempt + 1)))

/-! ### Lemmas about `executeActionWithRetry` -/

/-- Unknown action tag: immediate `failed` result, empty trace, no retry
increments (lines 148-153). -/
lemma exec_unknown (cfg : Config) (action : Action) (si : Nat)
    (invoke : Nat → Except String String) (dur : Nat → ℚ)
    (h : action_handlers.contains action.type.value = false) :
    executeActionWithRetry cfg action si invoke dur =
      ({ action_id := "step_" ++ toString si,
         status := ActionStatus.failed,
         error := some ("Неизвестный тип действия: " ++ action.type.value) }, [], 0) := by
  have h' : action.type.value ∉ action_handlers := by simpa using h
  simp [executeActionWithRetry, h']

/-- Registered action tag: the executor runs the retry loop from attempt 0
with `retry_attempts` further attempts available. -/
lemma exec_known (cfg : Config) (action : Action) (si : Nat)
    (invoke : Nat → Except String String) (dur : Nat → ℚ)
    (h : action_handlers.contains action.type.value = true) :
    executeActionWithRetry cfg action si invoke dur =
      retryLoop cfg.retry_delay invoke dur si 0 cfg.retry_attempts := by
  have h' : action.type.value ∈ action_handlers := by simpa using h
  simp [executeActionWithRetry, h']

/-- The executor only ever returns `completed` or `failed` results. -/
lemma exec_status (cfg : Config) (action : Action) (si : Nat)
    (invoke : Nat → Except String String) (dur : Nat → ℚ) :
    (executeActionWithRetry cfg action si invoke dur).1.status = ActionStatus.completed ∨
    (executeActionWithRetry cfg action si invoke dur).1.status = ActionStatus.failed := by
  cases h : action_handlers.contains action.type.value with
  | true => rw [exec_known cfg action si invoke dur h]; exact retryLoop_status _ _ _ _ _ _
  | false => rw [exec_unknown cfg action si invoke dur h]; exact Or.inr rfl

/-- The executor's result never records more than `retry_attempts` retries. -/
lemma exec_retry_count_le (cfg : Config) (action : Action) (si : Nat)
    (invoke : Nat → Except String String) (dur : Nat → ℚ) :
    (executeActionWithRetry cfg action si invoke dur).1.retry_count ≤ cfg.retry_attempts := by
  cases h : action_handlers.contains action.type.value with
  | true =>
    rw [exec_known cfg action si invoke dur h]
    have := retryLoop_retry_count_le cfg.retry_delay invoke dur si cfg.retry_attempts 0
    omega
  | false => rw [exec_unknown cfg action si invoke dur h]; exact Nat.zero_le _

/-- The executor's trace is gate-shaped. -/
lemma exec_gateShaped (cfg : Config) (action : Action) (si : Nat)
    (invoke : Nat → Except String String) (dur : Nat → ℚ) :
    GateShaped (executeActionWithRetry cfg action si invoke dur).2.1 := by
  cases h : action_handlers.contains action.type.value with
  | true => rw [exec_known cfg action si invoke dur h]; exact retryLoop_gateShaped _ _ _ _ _ _
  | false => rw [exec_unknown cfg action si invoke dur h]; exact GateShaped.nil

/-! ### Lemmas about gate-shaped traces -/

lemma GateShaped.append {p q : List Ev} (hp : GateShaped p) (hq : GateShaped q) :
    GateShaped (p ++ q) := by
  induction hp with
  | nil => simpa using hq
  | block hp' ih => exact GateShaped.block ih
  | pause d hp' ih => exact GateShaped.pause d ih

/-- A gate-shaped trace is a well-formed program for a task that starts
outside the gate and outside any handler. -/
lemma GateShaped.wf {p : List Ev} (hp : GateShaped p) : WF false false p := by
  induction hp with
  | nil => exact WF.nil false false
  | block hp' ih => exact WF.acq (WF.hstart (WF.hend (WF.rel ih)))
  | pause d hp' ih => exact WF.slp d ih

/-! ### Unfolding lemmas for the plan loop -/

lemma loop_cons_err (stepF : StepFun) (a : Action) (rest : List Action) (i : Nat)
    (e : String) (h : stepF i a = Except.error e) :
    executePlanLoop stepF (a :: rest) i = ([], [], 0, some e) := by
  simp [executePlanLoop, h]

lemma loop_cons_fatal (stepF : StepFun) (a : Action) (rest : List Action) (i : Nat)
    (r : ExecutionResult) (tr : List Ev) (d : Nat)
    (h : stepF i a = Except.ok (r, tr, d))
    (hF : r.status = ActionStatus.failed ∧ a.retry_on_fail = false) :
    executePlanLoop stepF (a :: rest) i = ([r], tr, d, none) := by
  cases rest with
  | nil => simp [executePlanLoop, h, hF]
  | cons b rest' => simp [executePlanLoop, h, hF]

lemma loop_cons_last (stepF : StepFun) (a : Action) (i : Nat)
    (r : ExecutionResult) (tr : List Ev) (d : Nat)
    (h : stepF i a = Except.ok (r, tr, d))
    (hN : ¬ (r.status = ActionStatus.failed ∧ a.retry_on_fail = false)) :
    executePlanLoop stepF [a] i = ([r], tr, d, none) := by
  simp [executePlanLoop, h, hN]

lemma loop_cons_go (stepF : StepFun) (a b : Action) (rest' : List Action) (i : Nat)
    (r : ExecutionResult) (tr : List Ev) (d : Nat)
    (h : stepF i a = Except.ok (r, tr, d))
    (hN : ¬ (r.status = ActionStatus.failed ∧ a.retry_on_fail = false)) :
    executePlanLoop stepF (a :: b :: rest') i =
      (r :: (executePlanLoop stepF (b :: rest') (i + 1)).1,
       tr ++ Ev.slp (1 / 2) :: (executePlanLoop stepF (b :: rest') (i + 1)).2.1,
       d + (executePlanLoop stepF (b :: rest') (i + 1)).2.2.1,
       (executePlanLoop stepF (b :: rest') (i + 1)).2.2.2) := by
  simp [executePlanLoop, h, hN]

/-- Master description of the plan loop under the real per-step body
(which never raises): no orchestration error; the ledger is a prefix of
the per-action results in order; the loop never continues past a fatal
result; it stops early only at a fatal result; and it reaches the end of
the plan when no result is fatal. -/
lemma loop_real_spec (cfg : Config) (beh : Nat → Nat → Except String String)
    (dur : Nat → Nat → ℚ) :
    ∀ (actions : List Action) (i : Nat),
    (executePlanLoop (realStep cfg beh dur) actions i).2.2.2 = none ∧
    (executePlanLoop (realStep cfg beh dur) actions i).1.length ≤ actions.length ∧
    (actions = [] ∨ 1 ≤ (executePlanLoop (realStep cfg beh dur) actions i).1.length) ∧
    (∀ j, j < (executePlanLoop (realStep cfg beh dur) actions i).1.length →
      (executePlanLoop (realStep cfg beh dur) actions i).1.getD j default =
        stepRes cfg beh dur (i + j) (actions.getD j default)) ∧
    (∀ j, j + 1 < (executePlanLoop (realStep cfg beh dur) actions i).1.length →
      ¬ Fatal (stepRes cfg beh dur (i + j) (actions.getD j default)) (actions.getD j default)) ∧
    ((executePlanLoop (realStep cfg beh dur) actions i).1.length < actions.length →
      Fatal
        (stepRes cfg beh dur
          (i + ((executePlanLoop (realStep cfg beh dur) actions i).1.length - 1))
          (actions.getD ((executePlanLoop (realStep cfg beh dur) actions i).1.length - 1) default))
        (actions.getD ((executePlanLoop (realStep cfg beh dur) actions i).1.length - 1) default)) ∧
    ((∀ j, j < actions.length →
        ¬ Fatal (stepRes cfg beh dur (i + j) (actions.getD j default)) (actions.getD j default)) →
      (executePlanLoop (realStep cfg beh dur) actions i).1.length = actions.length) := by
  intro actions
  induction actions with
  | nil =>
    intro i
    refine ⟨rfl, ?_, Or.inl rfl, ?_, ?_, ?_, ?_⟩
    · simp [executePlanLoop]
    · intro j hj
      simp [executePlanLoop] at hj
    · intro j hj
      simp [executePlanLoop] at hj
    · intro hlt
      simp [executePlanLoop] at hlt
    · intro H
      simp [executePlanLoop]
  | cons a rest ih =>
    intro i
    have hstep : realStep cfg beh dur i a =
        Except.ok (stepRes cfg beh dur i a,
          (executeActionWithRetry cfg a i (beh i) (dur i)).2.1,
          (executeActionWithRetry cfg a i (beh i) (dur i)).2.2) := rfl
    by_cases hP : Fatal (stepRes cfg beh dur i a) a
    · -- fatal first step: the loop stops with exactly this result
      have hun := loop_cons_fatal (realStep cfg beh dur) a rest i _ _ _ hstep hP
      rw [hun]
      refine ⟨rfl, by simp, Or.inr (by simp), ?_, ?_, ?_, ?_⟩
      · intro j hj
        simp only [List.length_singleton] at hj
        have hj0 : j = 0 := by omega
        subst hj0
        simp
      · intro j hcont
        simp only [List.length_singleton] at hcont
        omega
      · intro hlt
        simpa using hP
      · intro H
        exact absurd (by simpa using hP) (H 0 (by simp))
    · cases rest with
      | nil =>
        have hun := loop_cons_last (realStep cfg beh dur) a i _ _ _ hstep hP
        rw [hun]
        refine ⟨rfl, by simp, Or.inr (by simp), ?_, ?_, ?_, ?_⟩
        · intro j hj
          simp only [List.length_singleton] at hj
          have hj0 : j = 0 := by omega
          subst hj0
          simp
        · intro j hcont
          simp only [List.length_singleton] at hcont
          omega
        · intro hlt
          simp at hlt
        · intro H
          rfl
      | cons b rest' =>
        have hun := loop_cons_go (realStep cfg beh dur) a b rest' i _ _ _ hstep hP
        rw [hun]
        obtain ⟨ihe, ihlen, ihne, ihget, ihcont, ihstop, ihall⟩ := ih (i + 1)
        have hne : 1 ≤ (executePlanLoop (realStep cfg beh dur) (b :: rest') (i + 1)).1.length := by
          rcases ihne with h | h
          · exact absurd h (by simp)
          · exact h
        refine ⟨ihe, ?_, Or.inr (by simp), ?_, ?_, ?_, ?_⟩
        · simp only [List.length_cons] at ihlen ⊢
          omega
        · intro j hj
          cases j with
          | zero => simp
          | succ j' =>
            simp only [List.length_cons] at hj
            have := ihget j' (by omega)
            simp only [List.getD_cons_succ]
            rw [this]
            congr 1
            omega
        · intro j hcont
          cases j with
          | zero =>
            simpa using hP
          | succ j' =>
            simp only [List.length_cons] at hcont
            have := ihcont j' (by omega)
            simp only [List.getD_cons_succ]
            intro hF
            apply this
            rw [show i + 1 + j' = i + (j' + 1) by omega]
            exact hF
        · intro hlt
          simp only [List.length_cons] at hlt ⊢
          have hlt' : (executePlanLoop (realStep cfg beh dur) (b :: rest') (i + 1)).1.length <
              (b :: rest').length := by
            simp only [List.length_cons]
            omega
          have hstop := ihstop hlt'
          rw [show (executePlanLoop (realStep cfg beh dur) (b :: rest') (i + 1)).1.length + 1 - 1 =
            ((executePlanLoop (realStep cfg beh dur) (b :: rest') (i + 1)).1.length - 1) + 1 by omega]
          simp only [List.getD_cons_succ]
          rw [show i + (((executePlanLoop (realStep cfg beh dur) (b :: rest') (i + 1)).1.length - 1) + 1) =
            i + 1 + ((executePlanLoop (realStep cfg beh dur) (b :: rest') (i + 1)).1.length - 1) by omega]
          exact hstop
        · intro H
          simp only [List.length_cons]
          have Hrest : ∀ j, j < (b :: rest').length →
              ¬ Fatal (stepRes cfg beh dur (i + 1 + j) ((b :: rest').getD j default))
                ((b :: rest').getD j default) := by
            intro j hj
            have hj' : j + 1 < (a :: b :: rest').length := by
              simp only [List.length_cons] at hj ⊢
              omega
            have := H (j + 1) hj'
            simp only [List.getD_cons_succ] at this
            rw [show i + 1 + j = i + (j + 1) by omega]
            exact this
          rw [ihall Hrest]
          simp

/-- The whole plan-loop trace is gate-shaped: the gate wraps exactly the
handler invocations; backoff sleeps and the inter-step pacing delay happen
outside it. -/
lemma loop_real_gateShaped (cfg : Config) (beh : Nat → Nat → Except String String)
    (dur : Nat → Nat → ℚ) :
    ∀ (actions : List Action) (i : Nat),
    GateShaped (executePlanLoop (realStep cfg beh dur) actions i).2.1 := by
  intro actions
  induction actions with
  | nil =>
    intro i
    exact GateShaped.nil
  | cons a rest ih =>
    intro i
    have hstep : realStep cfg beh dur i a =
        Except.ok (stepRes cfg beh dur i a,
          (executeActionWithRetry cfg a i (beh i) (dur i)).2.1,
          (executeActionWithRetry cfg a i (beh i) (dur i)).2.2) := rfl
    by_cases hP : Fatal (stepRes cfg beh dur i a) a
    · rw [loop_cons_fatal (realStep cfg beh dur) a rest i _ _ _ hstep hP]
      exact exec_gateShaped cfg a i (beh i) (dur i)
    · cases rest with
      | nil =>
        rw [loop_cons_last (realStep cfg beh dur) a i _ _ _ hstep hP]
        exact exec_gateShaped cfg a i (beh i) (dur i)
      | cons b rest' =>
        rw [loop_cons_go (realStep cfg beh dur) a b rest' i _ _ _ hstep hP]
        exact GateShaped.append (exec_gateShaped cfg a i (beh i) (dur i))
          (GateShaped.pause _ (ih (i + 1)))

/-! ### The semaphore invariant -/

lemma WF_acq_inv {h iH : Bool} {p : List Ev} (hwf : WF h iH (Ev.acq :: p)) :
    h = false ∧ iH = false ∧ WF true false p := by
  cases hwf
  exact ⟨rfl, rfl, by assumption⟩

lemma WF_hstart_inv {h iH : Bool} {p : List Ev} (hwf : WF h iH (Ev.hstart :: p)) :
    h = true ∧ iH = false ∧ WF true true p := by
  cases hwf
  exact ⟨rfl, rfl, by assumption⟩

lemma WF_hend_inv {h iH : Bool} {p : List Ev} (hwf : WF h iH (Ev.hend :: p)) :
    h = true ∧ iH = true ∧ WF true false p := by
  cases hwf
  exact ⟨rfl, rfl, by assumption⟩

lemma WF_rel_inv {h iH : Bool} {p : List Ev} (hwf : WF h iH (Ev.rel :: p)) :
    h = true ∧ iH = false ∧ WF false false p := by
  cases hwf
  exact ⟨rfl, rfl, by assumption⟩

lemma WF_slp_inv {h iH : Bool} {p : List Ev} {d : ℚ} (hwf : WF h iH (Ev.slp d :: p)) :
    h = false ∧ iH = false ∧ WF false false p := by
  cases hwf
  exact ⟨rfl, rfl, by assumption⟩

lemma countHolding_append (l₁ l₂ : List Proc) :
    countHolding (l₁ ++ l₂) = countHolding l₁ + countHolding l₂ :=
  List.countP_append _ _ _

lemma countHolding_cons (t : Proc) (l : List Proc) :
    countHolding (t :: l) = countHolding l + if t.holding then 1 else 0 := by
  simp [countHolding, List.countP_cons]

lemma mem_split_cases {u t : Proc} {l₁ l₂ : List Proc} (hu : u ∈ l₁ ++ t :: l₂) :
    u ∈ l₁ ∨ u = t ∨ u ∈ l₂ := by
  rcases List.mem_append.mp hu with h | h
  · exact Or.inl h
  · rcases List.mem_cons.mp h with h | h
    · exact Or.inr (Or.inl h)
    · exact Or.inr (Or.inr h)

/-- The invariant holds initially: no permits are out, no handler runs. -/
lemma sysInv_init (bound : Nat) (progs : List (List Ev))
    (h : ∀ p ∈ progs, WF false false p) :
    SysInv bound (initSys bound progs) := by
  constructor
  · have hz : countHolding (progs.map fun p => ({ prog := p } : Proc)) = 0 := by
      rw [countHolding, List.countP_eq_zero]
      intro t ht
      rcases List.mem_map.mp ht with ⟨p, hp, rfl⟩
      simp
    simp [initSys, hz]
  · intro t ht
    rcases List.mem_map.mp ht with ⟨p, hp, rfl⟩
    exact ⟨fun hf => by simp at hf, h p hp⟩

/-- The invariant is preserved by every step of the interleaving. -/
lemma sysInv_step {bound : Nat} {σ σ' : Sys} (hinv : SysInv bound σ)
    (hstep : SysStep σ σ') : SysInv bound σ' := by
  obtain ⟨hsum, hall⟩ := hinv
  cases hstep with
  | acq s l₁ l₂ t p hpos hprog =>
    have ht := hall t (List.mem_append_right _ (List.mem_cons_self _ _))
    obtain ⟨htIH, htWF⟩ := ht
    rw [hprog] at htWF
    obtain ⟨hh, hiH, hwf'⟩ := WF_acq_inv htWF
    constructor
    · simp only [countHolding_append, countHolding_cons] at hsum ⊢
      rw [hh] at hsum
      simp only [if_false, Bool.false_eq_true, if_true] at hsum ⊢
      simp at hsum ⊢
      omega
    · intro u hu
      rcases mem_split_cases hu with h | h | h
      · exact hall u (List.mem_append_left _ h)
      · subst h
        refine ⟨fun _ => rfl, ?_⟩
        simpa [hiH] using hwf'
      · exact hall u (List.mem_append_right _ (List.mem_cons_of_mem _ h))
  | hstart s l₁ l₂ t p hprog =>
    have ht := hall t (List.mem_append_right _ (List.mem_cons_self _ _))
    obtain ⟨htIH, htWF⟩ := ht
    rw [hprog] at htWF
    obtain ⟨hh, hiH, hwf'⟩ := WF_hstart_inv htWF
    constructor
    · simp only [countHolding_append, countHolding_cons] at hsum ⊢
      exact hsum
    · intro u hu
      rcases mem_split_cases hu with h | h | h
      · exact hall u (List.mem_append_left _ h)
      · subst h
        refine ⟨fun _ => by simpa using hh, ?_⟩
        simpa [hh] using hwf'
      · exact hall u (List.mem_append_right _ (List.mem_cons_of_mem _ h))
  | hend s l₁ l₂ t p hprog =>
    have ht := hall t (List.mem_append_right _ (List.mem_cons_self _ _))
    obtain ⟨htIH, htWF⟩ := ht
    rw [hprog] at htWF
    obtain ⟨hh, hiH, hwf'⟩ := WF_hend_inv htWF
    constructor
    · simp only [countHolding_append, countHolding_cons] at hsum ⊢
      exact hsum
    · intro u hu
      rcases mem_split_cases hu with h | h | h
      · exact hall u (List.mem_append_left _ h)
      · subst h
        refine ⟨fun hf => by simp at hf, ?_⟩
        simpa [hh] using hwf'
      · exact hall u (List.mem_append_right _ (List.mem_cons_of_mem _ h))
  | rel s l₁ l₂ t p hprog =>
    have ht := hall t (List.mem_append_right _ (List.mem_cons_self _ _))
    obtain ⟨htIH, htWF⟩ := ht
    rw [hprog] at htWF
    obtain ⟨hh, hiH, hwf'⟩ := WF_rel_inv htWF
    constructor
    · simp only [countHolding_append, countHolding_cons] at hsum ⊢
      rw [hh] at hsum
      simp only [if_true] at hsum
      simp at hsum ⊢
      omega
    · intro u hu
      rcases mem_split_cases hu with h | h | h
      · exact hall u (List.mem_append_left _ h)
      · subst h
        refine ⟨fun hf => by simp [hiH] at hf, ?_⟩
        simpa [hiH] using hwf'
      · exact hall u (List.mem_append_right _ (List.mem_cons_of_mem _ h))
  | slp s l₁ l₂ t p d hprog =>
    have ht := hall t (List.mem_append_right _ (List.mem_cons_self _ _))
    obtain ⟨htIH, htWF⟩ := ht
    rw [hprog] at htWF
    obtain ⟨hh, hiH, hwf'⟩ := WF_slp_inv htWF
    constructor
    · simp only [countHolding_append, countHolding_cons] at hsum ⊢
      exact hsum
    · intro u hu
      rcases mem_split_cases hu with h | h | h
      · exact hall u (List.mem_append_left _ h)
      · subst h
        refine ⟨fun hf => by simp [hiH] at hf, ?_⟩
        simpa [hh, hiH] using hwf'
      · exact hall u (List.mem_append_right _ (List.mem_cons_of_mem _ h))

/-- The invariant holds in every reachable state. -/
lemma sysInv_reach {bound : Nat} {σ₀ σ : Sys} (h0 : SysInv bound σ₀)
    (hr : Reach σ₀ σ) : SysInv bound σ := by
  induction hr with
  | refl => exact h0
  | tail _ hstep ih => exact sysInv_step ih hstep

/-- In any invariant state, at most `bound` tasks are inside a handler. -/
lemma countInHandler_le_bound {bound : Nat} {σ : Sys} (hinv : SysInv bound σ) :
    countInHandler σ.tasks ≤ bound := by
  obtain ⟨hsum, hall⟩ := hinv
  have hle : countInHandler σ.tasks ≤ countHolding σ.tasks := by
    apply List.countP_mono_left
    intro t ht htrue
    exact (hall t ht).1 (by simpa using htrue)
  omega

/-! ### Concrete fixtures used by witnesses -/

/-- An attempt oracle that always raises. -/
def behFailW : Nat → Except String String := fun _ => Except.error "boom"

/-- An attempt oracle that raises on attempts before `k` and succeeds from
attempt `k` on. -/
def behOkAtW (k : Nat) : Nat → Except String String :=
  fun i => if i < k then Except.error "boom" else Except.ok "okay"

/-- Per-step oracles: step 1 always raises, the other steps succeed at once. -/
def behW : Nat → Nat → Except String String :=
  fun i => if i = 1 then behFailW else behOkAtW 0

/-- Zero wall-clock for witnesses. -/
def durW : Nat → Nat → ℚ := fun _ _ => 0

/-- A three-step plan whose second action is non-retryable. -/
def planActionsW : List Action :=
  [{ type := ActionType.navigate },
   { type := ActionType.click, retry_on_fail := false },
   { type := ActionType.extract_data }]

/-- A plan around `planActionsW`. -/
def planW : Plan :=
  { task := "demo", actions := planActionsW }

/-- A coordinator that has been initialized (the effect of `initialize()`
on a fresh instance). -/
def readyCoordinator (config : Config) : CoordinatorState :=
  { initCoordinator config with is_ready := true, active := true }

/-! ### Claims -/

/-- C1: for a registered action, the retry loop runs attempt indices
`0..maxRetries` inclusive.  If every attempt fails, the result is `failed`
with `retry_count = maxRetries`, the handler is invoked exactly
`maxRetries + 1` times, and the loop slept `baseDelay * 2 ^ i` after each
failing attempt `i < maxRetries`.  If the attempts before `k` fail and
attempt `k` succeeds, the result is `completed` with `retry_count = k`
after `k + 1` invocations and the first `k` backoffs. -/
theorem claimC1_retry_policy (cfg : Config) (action : Action) (si : Nat)
    (invoke : Nat → Except String String) (dur : Nat → ℚ)
    (hreg : action_handlers.contains action.type.value = true) :
    ((∀ i, i ≤ cfg.retry_attempts → isFail (invoke i) = true) →
      (executeActionWithRetry cfg action si invoke dur).1.status = ActionStatus.failed ∧
      (executeActionWithRetry cfg action si invoke dur).1.retry_count = cfg.retry_attempts ∧
      invocations (executeActionWithRetry cfg action si invoke dur).2.1 =
        cfg.retry_attempts + 1 ∧
      sleeps (executeActionWithRetry cfg action si invoke dur).2.1 =
        (List.range cfg.retry_attempts).map fun i => cfg.retry_delay * 2 ^ i) ∧
    (∀ k, k ≤ cfg.retry_attempts → (∀ i, i < k → isFail (invoke i) = true) →
      isFail (invoke k) = false →
      (executeActionWithRetry cfg action si invoke dur).1.status = ActionStatus.completed ∧
      (executeActionWithRetry cfg action si invoke dur).1.retry_count = k ∧
      invocations (executeActionWithRetry cfg action si invoke dur).2.1 = k + 1 ∧
      sleeps (executeActionWithRetry cfg action si invoke dur).2.1 =
        (List.range k).map fun i => cfg.retry_delay * 2 ^ i) := by
  rw [exec_known cfg action si invoke dur hreg]
  constructor
  · intro h
    have := retryLoop_fail_all cfg.retry_delay invoke dur si cfg.retry_attempts 0
      (fun j hj => by rw [Nat.zero_add]; exact h j hj)
    obtain ⟨h1, h2, h3, h4, h5⟩ := this
    rw [Nat.zero_add] at h2
    rw [List.range_eq_range']
    exact ⟨h1, h2, h4, h5⟩
  · intro k hk hfail hok
    have := retryLoop_first_ok cfg.retry_delay invoke dur si cfg.retry_attempts 0 k
      (Nat.zero_le k) (by omega) (fun i _ h2 => hfail i h2) hok
    obtain ⟨h1, h2, h3, h4, h5⟩ := this
    rw [Nat.sub_zero] at h4 h5
    rw [List.range_eq_range']
    exact ⟨h1, h2, h4, h5⟩

theorem claimC1_witness :
    (executeActionWithRetry {} { type := ActionType.navigate } 0 behFailW
      (fun _ => 0)).1.status = ActionStatus.failed ∧
    (executeActionWithRetry {} { type := ActionType.navigate } 0 behFailW
      (fun _ => 0)).1.retry_count = 3 ∧
    invocations (executeActionWithRetry {} { type := ActionType.navigate } 0 behFailW
      (fun _ => 0)).2.1 = 4 ∧
    sleeps (executeActionWithRetry {} { type := ActionType.navigate } 0 behFailW
      (fun _ => 0)).2.1 = (List.range 3).map fun i => (1 : ℚ) * 2 ^ i :=
  (claimC1_retry_policy {} { type := ActionType.navigate } 0 behFailW (fun _ => 0)
    (by decide)).1 (fun i _ => rfl)

/-- C10: each failed physical attempt increments `total_retries` once,
including the final exhausting attempt: a handler that fails `k` times and
then succeeds adds exactly `k`; a handler that fails all attempts adds
`maxRetries + 1`. -/
theorem claimC10_total_retries_per_action (cfg : Config) (action : Action) (si : Nat)
    (invoke : Nat → Except String String) (dur : Nat → ℚ)
    (hreg : action_handlers.contains action.type.value = true) :
    ((∀ i, i ≤ cfg.retry_attempts → isFail (invoke i) = true) →
      (executeActionWithRetry cfg action si invoke dur).2.2 = cfg.retry_attempts + 1) ∧
    (∀ k, k ≤ cfg.retry_attempts → (∀ i, i < k → isFail (invoke i) = true) →
      isFail (invoke k) = false →
      (executeActionWithRetry cfg action si invoke dur).2.2 = k) := by
  rw [exec_known cfg action si invoke dur hreg]
  constructor
  · intro h
    have := retryLoop_fail_all cfg.retry_delay invoke dur si cfg.retry_attempts 0
      (fun j hj => by rw [Nat.zero_add]; exact h j hj)
    exact this.2.2.1
  · intro k hk hfail hok
    have := retryLoop_first_ok cfg.retry_delay invoke dur si cfg.retry_attempts 0 k
      (Nat.zero_le k) (by omega) (fun i _ h2 => hfail i h2) hok
    rw [Nat.sub_zero] at this
    exact this.2.2.1

theorem claimC10_witness :
    (executeActionWithRetry {} { type := ActionType.navigate } 0 behFailW
      (fun _ => 0)).2.2 = 4 ∧
    (executeActionWithRetry {} { type := ActionType.click } 0 (behOkAtW 2)
      (fun _ => 0)).2.2 = 2 :=
  ⟨(claimC10_total_retries_per_action {} { type := ActionType.navigate } 0 behFailW
      (fun _ => 0) (by decide)).1 (fun i _ => rfl),
   (claimC10_total_retries_per_action {} { type := ActionType.click } 0 (behOkAtW 2)
      (fun _ => 0) (by decide)).2 2 (by decide) (fun i hi => by
        simp only [behOkAtW, if_pos hi]; rfl) (by decide)⟩

/-- C4: an action whose type tag is not registered yields an immediate
`failed` result with `retry_count = 0`, an empty event trace (so no
handler invocation, no semaphore acquisition, no sleep) and no retry
increment. -/
theorem claimC4_unknown_tag (cfg : Config) (action : Action) (si : Nat)
    (invoke : Nat → Except String String) (dur : Nat → ℚ)
    (hunreg : action_handlers.contains action.type.value = false) :
    (executeActionWithRetry cfg action si invoke dur).1.status = ActionStatus.failed ∧
    (executeActionWithRetry cfg action si invoke dur).1.retry_count = 0 ∧
    (executeActionWithRetry cfg action si invoke dur).2.1 = [] ∧
    invocations (executeActionWithRetry cfg action si invoke dur).2.1 = 0 ∧
    sleeps (executeActionWithRetry cfg action si invoke dur).2.1 = [] ∧
    (executeActionWithRetry cfg action si invoke dur).2.2 = 0 := by
  rw [exec_unknown cfg action si invoke dur hunreg]
  exact ⟨rfl, rfl, rfl, rfl, rfl, rfl⟩

theorem claimC4_witness :
    (executeActionWithRetry {} { type := ActionType.decision } 0 behFailW
      (fun _ => 0)).1.status = ActionStatus.failed ∧
    (executeActionWithRetry {} { type := ActionType.decision } 0 behFailW
      (fun _ => 0)).1.retry_count = 0 ∧
    (executeActionWithRetry {} { type := ActionType.decision } 0 behFailW
      (fun _ => 0)).2.1 = [] ∧
    invocations (executeActionWithRetry {} { type := ActionType.decision } 0 behFailW
      (fun _ => 0)).2.1 = 0 ∧
    sleeps (executeActionWithRetry {} { type := ActionType.decision } 0 behFailW
      (fun _ => 0)).2.1 = [] ∧
    (executeActionWithRetry {} { type := ActionType.decision } 0 behFailW
      (fun _ => 0)).2.2 = 0 :=
  claimC4_unknown_tag {} { type := ActionType.decision } 0 behFailW (fun _ => 0) (by decide)

/-- Every result in the plan loop's ledger is `completed` or `failed`. -/
lemma loop_real_mem_status (cfg : Config) (beh : Nat → Nat → Except String String)
    (dur : Nat → Nat → ℚ) (actions : List Action) (i : Nat) :
    ∀ r ∈ (executePlanLoop (realStep cfg beh dur) actions i).1,
    r.status = ActionStatus.completed ∨ r.status = ActionStatus.failed := by
  intro r hr
  obtain ⟨j, hj, hjr⟩ := List.mem_iff_getElem.mp hr
  obtain ⟨_, _, _, hget, _, _, _⟩ := loop_real_spec cfg beh dur actions i
  have h := hget j hj
  rw [List.getD_eq_getElem _ _ hj, hjr] at h
  rw [h]
  exact exec_status cfg (actions.getD j default) (i + j) (beh (i + j)) (dur (i + j))

/-- Every result in the plan loop's ledger records at most
`retry_attempts` retries. -/
lemma loop_real_mem_retry_le (cfg : Config) (beh : Nat → Nat → Except String String)
    (dur : Nat → Nat → ℚ) (actions : List Action) (i : Nat) :
    ∀ r ∈ (executePlanLoop (realStep cfg beh dur) actions i).1,
    r.retry_count ≤ cfg.retry_attempts := by
  intro r hr
  obtain ⟨j, hj, hjr⟩ := List.mem_iff_getElem.mp hr
  obtain ⟨_, _, _, hget, _, _, _⟩ := loop_real_spec cfg beh dur actions i
  have h := hget j hj
  rw [List.getD_eq_getElem _ _ hj, hjr] at h
  rw [h]
  exact exec_retry_count_le cfg (actions.getD j default) (i + j) (beh (i + j)) (dur (i + j))

/-- C2: the plan loop visits the actions in order; it stops iterating
exactly at a `failed` result on a non-retryable action: the ledger is a
prefix of the per-action results, no entry before the last one is fatal,
an early stop means the last entry is fatal (so the remaining actions are
never attempted), and if no result is fatal — in particular when failed
steps all have `retry_on_fail` — every action is executed. -/
theorem claimC2_abort_policy (cfg : Config) (beh : Nat → Nat → Except String String)
    (dur : Nat → Nat → ℚ) (actions : List Action) :
    (executePlanLoop (realStep cfg beh dur) actions 0).1.length ≤ actions.length ∧
    (∀ j, j < (executePlanLoop (realStep cfg beh dur) actions 0).1.length →
      (executePlanLoop (realStep cfg beh dur) actions 0).1.getD j default =
        stepRes cfg beh dur j (actions.getD j default)) ∧
    (∀ j, j + 1 < (executePlanLoop (realStep cfg beh dur) actions 0).1.length →
      ¬ Fatal (stepRes cfg beh dur j (actions.getD j default)) (actions.getD j default)) ∧
    ((executePlanLoop (realStep cfg beh dur) actions 0).1.length < actions.length →
      Fatal
        (stepRes cfg beh dur ((executePlanLoop (realStep cfg beh dur) actions 0).1.length - 1)
          (actions.getD ((executePlanLoop (realStep cfg beh dur) actions 0).1.length - 1) default))
        (actions.getD ((executePlanLoop (realStep cfg beh dur) actions 0).1.length - 1) default)) ∧
    ((∀ j, j < actions.length →
        ¬ Fatal (stepRes cfg beh dur j (actions.getD j default)) (actions.getD j default)) →
      (executePlanLoop (realStep cfg beh dur) actions 0).1.length = actions.length) := by
  obtain ⟨_, hlen, _, hget, hcont, hstop, hall⟩ := loop_real_spec cfg beh dur actions 0
  refine ⟨hlen, ?_, ?_, ?_, ?_⟩
  · intro j hj
    have := hget j hj
    rwa [Nat.zero_add] at this
  · intro j hj
    have := hcont j hj
    rwa [Nat.zero_add] at this
  · intro hlt
    have := hstop hlt
    rwa [Nat.zero_add] at this
  · intro H
    exact hall (fun j hj => by rw [Nat.zero_add]; exact H j hj)

theorem claimC2_witness :
    (executePlanLoop (realStep {} behW durW) planActionsW 0).1.length = 2 ∧
    Fatal
      (stepRes {} behW durW ((executePlanLoop (realStep {} behW durW) planActionsW 0).1.length - 1)
        (planActionsW.getD
          ((executePlanLoop (realStep {} behW durW) planActionsW 0).1.length - 1) default))
      (planActionsW.getD
        ((executePlanLoop (realStep {} behW durW) planActionsW 0).1.length - 1) default) :=
  ⟨by decide, (claimC2_abort_policy {} behW durW planActionsW).2.2.2.1 (by decide)⟩

/-- C3: an `Execute` call past the readiness check (the loop always
completes under the real step body) returns a summary whose `success` is
true iff every ledger entry is `completed`, whose counters equal the
number of `completed` / `failed` entries and the ledger length, and every
ledger entry is `completed` or `failed` — no other status is ever a
terminal output. -/
theorem claimC3_summary (st : CoordinatorState) (eid : String) (plan : Plan)
    (cfg : Config) (beh : Nat → Nat → Except String String) (dur : Nat → Nat → ℚ)
    (elapsed : ℚ) (hready : st.is_ready = true) :
    ∃ s st', execute_plan st eid plan (realStep cfg beh dur) elapsed = Except.ok (s, st') ∧
      (s.success = true ↔ ∀ r ∈ s.results, r.status = ActionStatus.completed) ∧
      s.total_actions = some s.results.length ∧
      s.successful_actions =
        some (s.results.countP fun r => decide (r.status = ActionStatus.completed)) ∧
      s.failed_actions =
        some (s.results.countP fun r => decide (r.status = ActionStatus.failed)) ∧
      (∀ r ∈ s.results,
        r.status = ActionStatus.completed ∨ r.status = ActionStatus.failed) := by
  have herr := (loop_real_spec cfg beh dur plan.actions 0).1
  have hmem := loop_real_mem_status cfg beh dur plan.actions 0
  rcases hloop : executePlanLoop (realStep cfg beh dur) plan.actions 0 with
    ⟨results, tr, retries, err⟩
  rw [hloop] at herr hmem
  simp only at herr
  subst herr
  rcases hexec : execute_plan st eid plan (realStep cfg beh dur) elapsed with e | ⟨s, st'⟩
  · exfalso
    simp [execute_plan, hready, hloop] at hexec
  · refine ⟨s, st', rfl, ?_⟩
    simp only [execute_plan, hready, Bool.true_eq_false, if_false, hloop] at hexec
    obtain ⟨hs, hst'⟩ := Prod.mk.injEq .. ▸ (Except.ok.injEq .. ▸ hexec)
    subst hs
    refine ⟨by simp [List.all_eq_true], rfl, rfl, rfl, ?_⟩
    intro r hr
    exact hmem r hr

theorem claimC3_witness :
    ∃ s st',
      execute_plan (readyCoordinator {}) "exec_1" planW (realStep {} behW durW) 0 =
        Except.ok (s, st') ∧
      (s.success = true ↔ ∀ r ∈ s.results, r.status = ActionStatus.completed) ∧
      s.total_actions = some s.results.length ∧
      s.successful_actions =
        some (s.results.countP fun r => decide (r.status = ActionStatus.completed)) ∧
      s.failed_actions =
        some (s.results.countP fun r => decide (r.status = ActionStatus.failed)) ∧
      (∀ r ∈ s.results,
        r.status = ActionStatus.completed ∨ r.status = ActionStatus.failed) :=
  claimC3_summary (readyCoordinator {}) "exec_1" planW {} behW durW 0 rfl

/-- C6: the ledger never exceeds the plan length; it is strictly shorter
only when a fatal (`failed`, non-retryable) result aborted the plan early;
and no ledger entry's `retry_count` exceeds the configured maximum. -/
theorem claimC6_ledger_invariants (st : CoordinatorState) (eid : String) (plan : Plan)
    (cfg : Config) (beh : Nat → Nat → Except String String) (dur : Nat → Nat → ℚ)
    (elapsed : ℚ) (hready : st.is_ready = true) :
    ∃ s st', execute_plan st eid plan (realStep cfg beh dur) elapsed = Except.ok (s, st') ∧
      s.results.length ≤ plan.actions.length ∧
      (s.results.length < plan.actions.length →
        Fatal
          (stepRes cfg beh dur (s.results.length - 1)
            (plan.actions.getD (s.results.length - 1) default))
          (plan.actions.getD (s.results.length - 1) default)) ∧
      (∀ r ∈ s.results, r.retry_count ≤ cfg.retry_attempts) := by
  have herr := (loop_real_spec cfg beh dur plan.actions 0).1
  have hlen := (loop_real_spec cfg beh dur plan.actions 0).2.1
  have hstop := (loop_real_spec cfg beh dur plan.actions 0).2.2.2.2.2.1
  have hretry := loop_real_mem_retry_le cfg beh dur plan.actions 0
  rcases hloop : executePlanLoop (realStep cfg beh dur) plan.actions 0 with
    ⟨results, tr, retries, err⟩
  rw [hloop] at herr hlen hstop hretry
  simp only at herr hlen hstop
  subst herr
  rcases hexec : execute_plan st eid plan (realStep cfg beh dur) elapsed with e | ⟨s, st'⟩
  · exfalso
    simp [execute_plan, hready, hloop] at hexec
  · refine ⟨s, st', rfl, ?_⟩
    simp only [execute_plan, hready, Bool.true_eq_false, if_false, hloop] at hexec
    obtain ⟨hs, hst'⟩ := Prod.mk.injEq .. ▸ (Except.ok.injEq .. ▸ hexec)
    subst hs
    refine ⟨hlen, ?_, fun r hr => hretry r hr⟩
    intro hlt
    have := hstop hlt
    simpa using this

theorem claimC6_witness :
    ∃ s st',
      execute_plan (readyCoordinator {}) "exec_2" planW (realStep {} behW durW) 0 =
        Except.ok (s, st') ∧
      s.results.length ≤ planW.actions.length ∧
      (s.results.length < planW.actions.length →
        Fatal
          (stepRes {} behW durW (s.results.length - 1)
            (planW.actions.getD (s.results.length - 1) default))
          (planW.actions.getD (s.results.length - 1) default)) ∧
      (∀ r ∈ s.results, r.retry_count ≤ ({} : Config).retry_attempts) :=
  claimC6_ledger_invariants (readyCoordinator {}) "exec_2" planW {} behW durW 0 rfl

/-- C8: each `Execute` call adds its ledger's totals to the lifetime
counters (`actions_executed` by the ledger length, `actions_failed` by the
number of failed entries, `total_retries` by the retry increments
performed, `total_duration` by the call's wall time); constructing the
engine zeroes the counters; neither `shutdown` nor a status query ever
changes or resets them. -/
theorem claimC8_lifetime_counters (st : CoordinatorState) (eid : String) (plan : Plan)
    (cfg : Config) (beh : Nat → Nat → Except String String) (dur : Nat → Nat → ℚ)
    (elapsed : ℚ) (hready : st.is_ready = true) :
    (∃ s st', execute_plan st eid plan (realStep cfg beh dur) elapsed = Except.ok (s, st') ∧
      st'.stats.actions_executed = st.stats.actions_executed + s.results.length ∧
      st'.stats.actions_failed = st.stats.actions_failed +
        (s.results.countP fun r => decide (r.status = ActionStatus.failed)) ∧
      st'.stats.total_retries = st.stats.total_retries +
        (executePlanLoop (realStep cfg beh dur) plan.actions 0).2.2.1 ∧
      st'.stats.total_duration = st.stats.total_duration + elapsed) ∧
    (∀ st₂ : CoordinatorState, (shutdown st₂).stats = st₂.stats) ∧
    (∀ (st₂ : CoordinatorState) (v : Nat), (get_status st₂ v).stats = st₂.stats) ∧
    (∀ c : Config, (initCoordinator c).stats =
      { actions_executed := 0, actions_failed := 0, total_retries := 0,
        total_duration := 0 }) := by
  refine ⟨?_, fun _ => rfl, fun _ _ => rfl, fun _ => rfl⟩
  have herr := (loop_real_spec cfg beh dur plan.actions 0).1
  rcases hloop : executePlanLoop (realStep cfg beh dur) plan.actions 0 with
    ⟨results, tr, retries, err⟩
  rw [hloop] at herr
  simp only at herr
  subst herr
  rcases hexec : execute_plan st eid plan (realStep cfg beh dur) elapsed with e | ⟨s, st'⟩
  · exfalso
    simp [execute_plan, hready, hloop] at hexec
  · refine ⟨s, st', rfl, ?_⟩
    simp only [execute_plan, hready, Bool.true_eq_false, if_false, hloop] at hexec
    obtain ⟨hs, hst'⟩ := Prod.mk.injEq .. ▸ (Except.ok.injEq .. ▸ hexec)
    subst hs
    subst hst'
    exact ⟨rfl, rfl, rfl, rfl⟩

theorem claimC8_witness :
    (∃ s st',
      execute_plan (readyCoordinator {}) "exec_3" planW (realStep {} behW durW) 0 =
        Except.ok (s, st') ∧
      st'.stats.actions_executed =
        (readyCoordinator {}).stats.actions_executed + s.results.length ∧
      st'.stats.actions_failed = (readyCoordinator {}).stats.actions_failed +
        (s.results.countP fun r => decide (r.status = ActionStatus.failed)) ∧
      st'.stats.total_retries = (readyCoordinator {}).stats.total_retries +
        (executePlanLoop (realStep {} behW durW) planW.actions 0).2.2.1 ∧
      st'.stats.total_duration = (readyCoordinator {}).stats.total_duration + 0) ∧
    (∀ st₂ : CoordinatorState, (shutdown st₂).stats = st₂.stats) ∧
    (∀ (st₂ : CoordinatorState) (v : Nat), (get_status st₂ v).stats = st₂.stats) ∧
    (∀ c : Config, (initCoordinator c).stats =
      { actions_executed := 0, actions_failed := 0, total_retries := 0,
        total_duration := 0 }) :=
  claimC8_lifetime_counters (readyCoordinator {}) "exec_3" planW {} behW durW 0 rfl

/-- C5: `Execute` raises exactly when called before initialization, prior
to any execution; once ready it never raises, whatever the per-step body
does: even when an orchestration exception escapes the loop, the call
still returns a summary carrying `success = false`, the error message,
and the partial ledger accumulated before the exception. -/
theorem claimC5_execute_boundary (st : CoordinatorState) (eid : String) (plan : Plan)
    (stepF : StepFun) (elapsed : ℚ) :
    (st.is_ready = false →
      execute_plan st eid plan stepF elapsed =
        Except.error "Координатор не инициализирован") ∧
    (st.is_ready = true →
      ∃ s st', execute_plan st eid plan stepF elapsed = Except.ok (s, st') ∧
        s.results = (executePlanLoop stepF plan.actions 0).1 ∧
        (∀ e, (executePlanLoop stepF plan.actions 0).2.2.2 = some e →
          s.success = false ∧ s.error = some e)) := by
  constructor
  · intro hnr
    simp [execute_plan, hnr]
  · intro hready
    rcases hloop : executePlanLoop stepF plan.actions 0 with ⟨results, tr, retries, err⟩
    rcases hexec : execute_plan st eid plan stepF elapsed with e | ⟨s, st'⟩
    · exfalso
      cases err with
      | none => simp [execute_plan, hready, hloop] at hexec
      | some e' => simp [execute_plan, hready, hloop] at hexec
    · refine ⟨s, st', rfl, ?_, ?_⟩
      · cases err with
        | none =>
          simp only [execute_plan, hready, Bool.true_eq_false, if_false, hloop] at hexec
          obtain ⟨hs, hst'⟩ := Prod.mk.injEq .. ▸ (Except.ok.injEq .. ▸ hexec)
          subst hs
          rfl
        | some e' =>
          simp only [execute_plan, hready, Bool.true_eq_false, if_false, hloop] at hexec
          obtain ⟨hs, hst'⟩ := Prod.mk.injEq .. ▸ (Except.ok.injEq .. ▸ hexec)
          subst hs
          rfl
      · intro e' he'
        cases err with
        | none => simp at he'
        | some e₂ =>
          have he₂ : e₂ = e' := by simpa using he'
          subst he₂
          simp only [execute_plan, hready, Bool.true_eq_false, if_false, hloop] at hexec
          obtain ⟨hs, hst'⟩ := Prod.mk.injEq .. ▸ (Except.ok.injEq .. ▸ hexec)
          subst hs
          exact ⟨rfl, rfl⟩

/-- A per-step body that raises at step 1: used to exercise the
orchestration-failure path of the `Execute` boundary. -/
def stepRaiseW : StepFun :=
  fun i a => if i = 1 then Except.error "orchestration" else realStep {} behW durW i a

theorem claimC5_witness :
    execute_plan (initCoordinator {}) "exec_4" planW stepRaiseW 0 =
      Except.error "Координатор не инициализирован" ∧
    (∃ s st', execute_plan (readyCoordinator {}) "exec_4" planW stepRaiseW 0 =
        Except.ok (s, st') ∧
      s.results = (executePlanLoop stepRaiseW planW.actions 0).1 ∧
      (∀ e, (executePlanLoop stepRaiseW planW.actions 0).2.2.2 = some e →
        s.success = false ∧ s.error = some e)) :=
  ⟨(claimC5_execute_boundary (initCoordinator {}) "exec_4" planW stepRaiseW 0).1 rfl,
   (claimC5_execute_boundary (readyCoordinator {}) "exec_4" planW stepRaiseW 0).2 rfl⟩

/-- C7: the concurrency gate is held exactly around each physical handler
invocation — every execution trace is a concatenation of
`acquire, start, end, release` blocks and stand-alone sleeps (backoff and
pacing happen outside the gate) — and consequently, when any number of
concurrently running plan executions are interleaved against a gate of
bound 1, at most one task is ever inside a handler invocation. -/
theorem claimC7_concurrency_gate :
    (∀ (cfg : Config) (beh : Nat → Nat → Except String String)
       (dur : Nat → Nat → ℚ) (actions : List Action) (i : Nat),
      GateShaped (executePlanLoop (realStep cfg beh dur) actions i).2.1) ∧
    (∀ (plans : List (Config × (Nat → Nat → Except String String) ×
        (Nat → Nat → ℚ) × List Action)) (σ : Sys),
      Reach (initSys 1 (plans.map fun q =>
        (executePlanLoop (realStep q.1 q.2.1 q.2.2.1) q.2.2.2 0).2.1)) σ →
      countInHandler σ.tasks ≤ 1) := by
  constructor
  · exact loop_real_gateShaped
  · intro plans σ hreach
    have h0 : SysInv 1 (initSys 1 (plans.map fun q =>
        (executePlanLoop (realStep q.1 q.2.1 q.2.2.1) q.2.2.2 0).2.1)) := by
      apply sysInv_init
      intro p hp
      rcases List.mem_map.mp hp with ⟨q, hq, rfl⟩
      exact GateShaped.wf (loop_real_gateShaped q.1 q.2.1 q.2.2.1 q.2.2.2 0)
    exact countInHandler_le_bound (sysInv_reach h0 hreach)

theorem claimC7_witness :
    GateShaped (executePlanLoop (realStep {} behW durW) planActionsW 0).2.1 ∧
    countInHandler
      (initSys 1 ([({}, behW, durW, planActionsW), ({}, behW, durW, planActionsW)].map
        fun q => (executePlanLoop (realStep q.1 q.2.1 q.2.2.1) q.2.2.2 0).2.1)).tasks ≤ 1 :=
  ⟨claimC7_concurrency_gate.1 {} behW durW planActionsW 0,
   claimC7_concurrency_gate.2 [({}, behW, durW, planActionsW), ({}, behW, durW, planActionsW)]
     _ Reach.refl⟩

/-- One task about to run a single gated invocation. -/
def progC : List Ev := [Ev.acq, Ev.hstart, Ev.hend, Ev.rel]

/-- The state after that task acquired the gate (bound 2). -/
def sysC1 : Sys :=
  ⟨1, [{ prog := [Ev.hstart, Ev.hend, Ev.rel], holding := true, inHandler := false }]⟩

/-- The state after it also entered the handler: one invocation in flight. -/
def sysC2 : Sys :=
  ⟨1, [{ prog := [Ev.hend, Ev.rel], holding := true, inHandler := true }]⟩

/-- A ready coordinator configured with the default gate bound 2. -/
def stC : CoordinatorState := readyCoordinator {}

/-- C9, counterexample: the status query does NOT return the configured
concurrency bound regardless of in-flight invocations.  In the reachable
state `sysC2` — one handler invocation in flight under the default bound
2 — `get_status` reads `Semaphore._value` and reports 1, not the
configured 2. -/
theorem claimC9_counterexample :
    Reach (initSys 2 [progC]) sysC2 ∧
    countInHandler sysC2.tasks = 1 ∧
    (get_status stC sysC2.sem).max_parallel ≠ stC.config.max_parallel_actions := by
  refine ⟨?_, by decide, by decide⟩
  have h1 : SysStep (initSys 2 [progC]) sysC1 :=
    SysStep.acq 2 [] [] { prog := progC } [Ev.hstart, Ev.hend, Ev.rel] (by omega) rfl
  have h2 : SysStep sysC1 sysC2 :=
    SysStep.hstart 1 [] [] { prog := [Ev.hstart, Ev.hend, Ev.rel], holding := true }
      [Ev.hend, Ev.rel] rfl
  exact Reach.tail (Reach.tail Reach.refl h1) h2

/-- C9, amended: the status query returns the readiness flag, the lifetime
counters, the semaphore's CURRENT available-permit count (not necessarily
the configured bound), and the seven registered capability tags; the
reported count equals the configured bound exactly in states where no
handler invocation holds the gate. -/
theorem claimC9_amended (st : CoordinatorState) (v : Nat) :
    (get_status st v).is_ready = st.is_ready ∧
    (get_status st v).stats = st.stats ∧
    (get_status st v).max_parallel = v ∧
    (get_status st v).available_actions =
      ["navigate", "click", "input_text", "extract_data", "wait", "scroll",
       "execute_script"] ∧
    (∀ (bound : Nat) (progs : List (List Ev)) (σ : Sys),
      (∀ p ∈ progs, WF false false p) → Reach (initSys bound progs) σ →
      countHolding σ.tasks = 0 → σ.sem = bound) := by
  refine ⟨rfl, rfl, rfl, rfl, ?_⟩
  intro bound progs σ hwf hreach hzero
  have hinv := sysInv_reach (sysInv_init bound progs hwf) hreach
  have := hinv.1
  omega

theorem claimC9_amended_witness :
    (get_status stC 1).is_ready = true ∧
    (get_status stC 1).max_parallel = 1 ∧
    (get_status stC 1).available_actions =
      ["navigate", "click", "input_text", "extract_data", "wait", "scroll",
       "execute_script"] ∧
    (initSys 2 [progC]).sem = 2 :=
  ⟨(claimC9_amended stC 1).1, (claimC9_amended stC 1).2.2.1,
   (claimC9_amended stC 1).2.2.2.1,
   (claimC9_amended stC 1).2.2.2.2 2 [progC] (initSys 2 [progC])
     (fun p hp => by
       rcases List.mem_cons.mp hp with h | h
       · rw [h]
         exact GateShaped.wf (GateShaped.block GateShaped.nil)
       · simp at h)
     Reach.refl (by decide)⟩

end BrowseHelper
